import Mathlib

/-!
Shallow embedding of `src/dockers/generate_escape_targets.py`, a script that
turns container-image metadata records into generated Dockerfiles and a
docker-compose document.  Python strings are modelled as Lean `String`
(operating on their `List Char` data); Python dicts coming from JSON are
modelled as association lists over a small JSON-value type; file-system
effects are modelled as pure lists of (path, content) writes; raised
exceptions are modelled with `Except`.
-/

set_option maxRecDepth 16384

namespace EscapeTargets

/-- Python's `p in s` substring test, matching from the head:
`leadMatch p l` is true when `p` is an initial segment of `l`. -/
def leadMatch : List Char → List Char → Bool
  | [], _ => true
  | _ :: _, [] => false
  | p :: ps, c :: cs => p == c && leadMatch ps cs

/-- `occursIn p l` is true when `p` occurs contiguously inside `l`
(the semantics of Python's `in` on strings). -/
def occursIn (p : List Char) : List Char → Bool
  | [] => p.isEmpty
  | c :: cs => leadMatch p (c :: cs) || occursIn p cs

/-- Python `pat in s` for strings. -/
def strIn (pat s : String) : Bool := occursIn pat.data s.data

/-- Python `s.lower()` (ASCII case folding, which coincides with CPython
on the ASCII inputs this script handles). -/
def pyLower (s : String) : String := String.mk (s.data.map Char.toLower)

/-- Python `s.strip()`: remove leading and trailing whitespace. -/
def pyStrip (s : String) : String :=
  String.mk (((s.data.dropWhile Char.isWhitespace).reverse.dropWhile
    Char.isWhitespace).reverse)

/-- Python `s.replace(c, d)` for single-character patterns: a character map. -/
def replaceChar (c d : Char) (s : String) : String :=
  String.mk (s.data.map fun x => if x = c then d else x)

/-- Python `sep.join(xs)`. -/
def joinWith (sep : String) : List String → String
  | [] => ""
  | [x] => x
  | x :: y :: xs => x ++ sep ++ joinWith sep (y :: xs)

/-- `TOOLS_BY_DISTRO`: the fixed high-risk tool lists, keyed by distro
family; `.get` with the alpine list as default. -/
def TOOLS_BY_DISTRO (distro : String) : List String :=
  if distro = "alpine" then
    ["socat", "curl", "wget", "netcat-openbsd", "strace",
     "procps", "iproute2", "lsof", "findutils", "bash", "less"]
  else if distro = "debian" then
    ["socat", "curl", "wget", "netcat-traditional", "strace",
     "procps", "iproute2", "lsof", "findutils", "bash", "less"]
  else
    ["socat", "curl", "wget", "netcat-openbsd", "strace",
     "procps", "iproute2", "lsof", "findutils", "bash", "less"]

/-- `guess_base_image`: case-insensitive substring heuristic from the
image name to a base image. -/
def guess_base_image (name : String) : String :=
  let name_lower := pyLower name
  if strIn "alpine" name_lower then "alpine:latest"
  else if strIn "ubuntu" name_lower || strIn "debian" name_lower then
    "debian:bookworm-slim"
  else "alpine:latest"

/-- `detect_distro`: distro family from the base-image string. -/
def detect_distro (base_image : String) : String :=
  if strIn "alpine" base_image then "alpine"
  else if strIn "debian" base_image || strIn "ubuntu" base_image then "debian"
  else "alpine"

/-- The distro family the script ends up using for an image name. -/
def distroOf (name : String) : String := detect_distro (guess_base_image name)

/-- The tool list the script ends up using for an image name. -/
def toolsOf (name : String) : List String := TOOLS_BY_DISTRO (distroOf name)

/-- The `install_cmd` computed inside `generate_dockerfile` for an image
name. -/
def installCmdOf (name : String) : String :=
  let distro := distroOf name
  let tools := TOOLS_BY_DISTRO distro
  if distro = "alpine" then
    "apk add --no-cache " ++ joinWith " " tools
  else
    "apt-get update && apt-get install -y --no-install-recommends " ++
      joinWith " " tools ++ " && rm -rf /var/lib/apt/lists/*"

/-- A JSON scalar as it matters to this script: either a string, or a
non-string value (represented by an integer), which `.strip()` would
blow up on. -/
inductive JValue where
  | str (s : String)
  | num (n : Int)
deriving DecidableEq, Repr

/-- One element of a parsed JSON file: a JSON object (an association
list of fields) or any non-object value, which the loader skips via its
`isinstance(item, dict)` check. -/
inductive JItem where
  | dict (fields : List (String × JValue))
  | nondict
deriving DecidableEq, Repr

/-- One input `*.json` file: `json.load` either raises (malformed) or
yields a single object or an array of items. -/
inductive JFile where
  | malformed
  | single (item : JItem)
  | array (items : List JItem)
deriving DecidableEq, Repr

/-- A validated metadata record, as built by `process_json_files`.
The `description` keeps whatever JSON value `item.get("description", "")`
returned. -/
structure MetadataRecord where
  name : String
  «namespace» : String
  description : JValue
  source_file : String
deriving DecidableEq, Repr

/-- Python `dict.get(key)` on a JSON object. -/
def jget (fields : List (String × JValue)) (key : String) : Option JValue :=
  (fields.find? (fun kv => kv.1 == key)).map (fun kv => kv.2)

/-- `item.get(key, "").strip()`: absent fields default to `""`; a
non-string present value makes `.strip()` raise `AttributeError`,
modelled as `Except.error`. -/
def getStrip (fields : List (String × JValue)) (key : String) :
    Except Unit String :=
  match jget fields key with
  | none => Except.ok ""
  | some (JValue.str s) => Except.ok (pyStrip s)
  | some (JValue.num _) => Except.error ()

/-- The per-item body of the loader loop in `process_json_files`:
skip non-dicts, strip `name`/`namespace`, drop the item when either is
empty, otherwise build a `MetadataRecord`. -/
def processItem (source_file : String) : JItem → Except Unit (Option MetadataRecord)
  | JItem.nondict => Except.ok none
  | JItem.dict fields =>
      match getStrip fields "name" with
      | Except.error e => Except.error e
      | Except.ok name =>
        match getStrip fields "namespace" with
        | Except.error e => Except.error e
        | Except.ok nspace =>
          if name = "" ∨ nspace = "" then Except.ok none
          else Except.ok (some
            { name := name
              «namespace» := nspace
              description := (jget fields "description").getD (JValue.str "")
              source_file := source_file })

/-- The loader loop over the items of one file, in order; an exception
from any item aborts the whole run. -/
def loadItems (source_file : String) : List JItem → Except Unit (List MetadataRecord)
  | [] => Except.ok []
  | i :: is =>
      match processItem source_file i with
      | Except.error e => Except.error e
      | Except.ok r =>
        match loadItems source_file is with
        | Except.error e => Except.error e
        | Except.ok rest =>
          match r with
          | some m => Except.ok (m :: rest)
          | none => Except.ok rest

/-- Loading one `*.json` file: malformed JSON is skipped with a warning
(contributing no records), otherwise every item of the file is processed. -/
def loadFile : String × JFile → Except Unit (List MetadataRecord)
  | (_, JFile.malformed) => Except.ok []
  | (fname, JFile.single item) => loadItems fname [item]
  | (fname, JFile.array items) => loadItems fname items

/-- `all_records`: the concatenation of the records of every file, in
directory order. -/
def loadRecords : List (String × JFile) → Except Unit (List MetadataRecord)
  | [] => Except.ok []
  | f :: fs =>
      match loadFile f with
      | Except.error e => Except.error e
      | Except.ok rs =>
        match loadRecords fs with
        | Except.error e => Except.error e
        | Except.ok rest => Except.ok (rs ++ rest)

/-- The deduplication key `(r["namespace"], r["name"])`. -/
def keyOf (r : MetadataRecord) : String × String := (r.«namespace», r.name)

/-- The dedup loop of `process_json_files`, with the `seen` set made
explicit as the list of keys already kept. -/
def dedupGo (seen : List (String × String)) :
    List MetadataRecord → List MetadataRecord
  | [] => []
  | r :: rs =>
      if keyOf r ∈ seen then dedupGo seen rs
      else r :: dedupGo (keyOf r :: seen) rs

/-- `unique_records`: first occurrence of each `(namespace, name)` key wins. -/
def dedupRecords (rs : List MetadataRecord) : List MetadataRecord := dedupGo [] rs

/-- `sanitize_service_name`: lower-case, then replace every character
outside `[a-z0-9\-_]` with `_` (the action of `re.sub` on each character). -/
def sanitize_service_name (name : String) : String :=
  String.mk ((pyLower name).data.map fun c =>
    if ('a' ≤ c ∧ c ≤ 'z') ∨ ('0' ≤ c ∧ c ≤ '9') ∨ c = '-' ∨ c = '_' then c
    else '_')

/-- `safe_name`: `f"{namespace}_{name}"` with `/`, `:` and `.` each
replaced by `_`. -/
def sanitizeKey (nspace name : String) : String :=
  replaceChar '.' '_' (replaceChar ':' '_' (replaceChar '/' '_'
    (nspace ++ "_" ++ name)))

/-- The Dockerfile output filename `f"Dockerfile.{safe_name}"`. -/
def dockerfileNameOf (r : MetadataRecord) : String :=
  "Dockerfile." ++ sanitizeKey r.«namespace» r.name

/-- One entry of `service_info_list`. -/
structure ServiceInfo where
  service_name : String
  dockerfile : String
  container_name : String
deriving DecidableEq, Repr

/-- The service-info entry derived from one unique record. -/
def toServiceInfo (r : MetadataRecord) : ServiceInfo :=
  let safe_name := sanitizeKey r.«namespace» r.name
  { service_name := sanitize_service_name safe_name,
    dockerfile := "Dockerfile." ++ safe_name,
    container_name := "escape-target-" ++ safe_name }

/-- Python `str()` of a JSON value, as f-string interpolation renders it. -/
def jvalStr : JValue → String
  | JValue.str s => s
  | JValue.num n => toString n

/-- `generate_dockerfile`: the f-string template filled in and stripped. -/
def generate_dockerfile (record : MetadataRecord) : String :=
  let full_name := record.«namespace» ++ "/" ++ record.name
  let base_image := guess_base_image record.name
  let install_cmd := installCmdOf record.name
  pyStrip ("# Escape target container (for research only)\n# Based on: " ++
    full_name ++ "\n# Description: " ++ jvalStr record.description ++
    "\n\nFROM " ++ base_image ++
    "\n\nLABEL org.security.dataset=\"container-escape-target\"\nLABEL source.image=\"" ++
    full_name ++ "\"\n\nRUN " ++ install_cmd ++
    "\n\n# Add non-root user (but root remains default)\nRUN adduser -D -s /bin/sh attacker 2>/dev/null || true\n\nEXPOSE 8080\n\nCMD [\"sh\", \"-c\", \"while true; do echo \x27HTTP/1.1 200 OK\\r\\n\\r\\nEscape Target Active\x27 | nc -l -p 8080 -s 0.0.0.0 2>/dev/null; done\"]\n")

/-- `process_json_files` as a pure function from the input files to the
returned `service_info_list` (empty directory short-circuits to `[]`). -/
def processJsonFiles (files : List (String × JFile)) :
    Except Unit (List ServiceInfo) :=
  if files.isEmpty then Except.ok []
  else (loadRecords files).map (fun rs => (dedupRecords rs).map toServiceInfo)

/-- The sequence of Dockerfile writes `(path, content)` performed by
`process_json_files`, in order. -/
def dockerfileWritesOf (files : List (String × JFile)) :
    Except Unit (List (String × String)) :=
  if files.isEmpty then Except.ok []
  else (loadRecords files).map (fun rs =>
    (dedupRecords rs).map (fun r => (dockerfileNameOf r, generate_dockerfile r)))

/-- One YAML service stanza of `generate_docker_compose`. -/
def composeStanza (info : ServiceInfo) : String :=
  "  " ++ info.service_name ++
  ":\n    build:\n      context: .\n      dockerfile: " ++ info.dockerfile ++
  "\n    container_name: " ++ info.container_name ++
  "\n    privileged: false\n    cap_add:\n      - SYS_PTRACE\n      - DAC_READ_SEARCH\n    security_opt:\n      - apparmor:unconfined\n      - seccomp:unconfined\n    volumes:\n      - /:/host:ro\n      - /var/run/docker.sock:/var/run/docker.sock:ro\n    network_mode: bridge\n    ports:\n      - \"8080\"\n    restart: unless-stopped\n    stdin_open: true\n    tty: true\n"

/-- Concatenation of the stanzas, in service order. -/
def composeJoin : List ServiceInfo → String
  | [] => ""
  | i :: is => composeStanza i ++ composeJoin is

/-- `generate_docker_compose`: the full compose document text. -/
def generate_docker_compose (infos : List ServiceInfo) : String :=
  "services:\n" ++ composeJoin infos

/-- The ways `main` can abort: the input directory is missing
(`FileNotFoundError`), or an uncaught `AttributeError` escaped the loader. -/
inductive MainError where
  | dirMissing
  | fieldNotString
deriving DecidableEq, Repr

/-- What `main` leaves behind: the service list and whether the compose
file was written. -/
structure MainResult where
  services : List ServiceInfo
  composeWritten : Bool
deriving DecidableEq, Repr

/-- `main` as a pure function of whether the input directory exists and
of its files: missing directory raises before any processing; a
populated service list triggers the compose write, an empty one only
prints a terminal message. -/
def runMain (inputDirExists : Bool) (files : List (String × JFile)) :
    Except MainError MainResult :=
  if inputDirExists then
    match processJsonFiles files with
    | Except.error _ => Except.error MainError.fieldNotString
    | Except.ok services =>
        Except.ok { services := services, composeWritten := !services.isEmpty }
  else Except.error MainError.dirMissing

/-- The string value of a field, with absent or non-string fields read
as the empty string. -/
def strFieldOrEmpty (fields : List (String × JValue)) (key : String) : String :=
  match jget fields key with
  | some (JValue.str s) => s
  | _ => ""

/-- Spec-side restatement of the loader's per-item validation, written
from the spec's words: a record missing `name` or `namespace` (after
trimming whitespace) is dropped, every other object yields a record.
Used to compare the code's loader against the spec. -/
def specKeep (source_file : String) : JItem → Option MetadataRecord
  | JItem.nondict => none
  | JItem.dict fields =>
      let name := pyStrip (strFieldOrEmpty fields "name")
      let nspace := pyStrip (strFieldOrEmpty fields "namespace")
      if name = "" ∨ nspace = "" then none
      else some { name := name, «namespace» := nspace,
                  description := (jget fields "description").getD (JValue.str ""),
                  source_file := source_file }

/-- The field is absent or holds a string (the precondition under which
`.strip()` cannot raise). -/
def stringFieldB : Option JValue → Bool
  | some (JValue.num _) => false
  | _ => true

/-- Both `name` and `namespace` are absent-or-string on this item. -/
def stringFieldsB : JItem → Bool
  | JItem.nondict => true
  | JItem.dict fields =>
      stringFieldB (jget fields "name") && stringFieldB (jget fields "namespace")

instance {ε α : Type} [DecidableEq ε] [DecidableEq α] :
    DecidableEq (Except ε α) := fun a b =>
  match a, b with
  | Except.error x, Except.error y =>
      if h : x = y then isTrue (congrArg Except.error h)
      else isFalse (fun hc => h (Except.error.inj hc))
  | Except.ok x, Except.ok y =>
      if h : x = y then isTrue (congrArg Except.ok h)
      else isFalse (fun hc => h (Except.ok.inj hc))
  | Except.error _, Except.ok _ => isFalse (fun hc => Except.noConfusion hc)
  | Except.ok _, Except.error _ => isFalse (fun hc => Except.noConfusion hc)

/-! ### Concrete inputs used to instantiate the theorems -/

/-- The spec's worked example: `{"name":"curl","namespace":"library","description":"test"}`. -/
def curlItem : JItem :=
  JItem.dict [("name", JValue.str "curl"), ("namespace", JValue.str "library"),
    ("description", JValue.str "test")]

/-- An input directory holding one JSON file with the worked example. -/
def curlFiles : List (String × JFile) := [("metadata.json", JFile.single curlItem)]

/-- The record the loader builds from `curlItem`. -/
def curlRecord : MetadataRecord :=
  { name := "curl"
    «namespace» := "library"
    description := JValue.str "test"
    source_file := "metadata.json" }

/-- A second record with the same `(namespace, name)` key as `curlRecord`. -/
def curlRecordDup : MetadataRecord :=
  { name := "curl"
    «namespace» := "library"
    description := JValue.str "dup"
    source_file := "other.json" }

/-- A record whose name contains a dot. -/
def recDotName : MetadataRecord :=
  { name := "b.c"
    «namespace» := "a"
    description := JValue.str ""
    source_file := "x.json" }

/-- A record with a distinct key whose sanitized key collides with
`recDotName`. -/
def recUscName : MetadataRecord :=
  { name := "b_c"
    «namespace» := "a"
    description := JValue.str ""
    source_file := "x.json" }

/-- An item whose `name` is whitespace only (dropped by the loader). -/
def blankItem : JItem :=
  JItem.dict [("name", JValue.str "  "), ("namespace", JValue.str "x")]

/-- An item whose `name` field holds a number instead of a string. -/
def badItem : JItem :=
  JItem.dict [("name", JValue.num 3), ("namespace", JValue.str "x")]

/-! ### Lemmas about the dedup loop -/

theorem dedupGo_sublist (seen : List (String × String)) (rs : List MetadataRecord) :
    List.Sublist (dedupGo seen rs) rs := by
  induction rs generalizing seen with
  | nil => simp [dedupGo]
  | cons a rs ih =>
    by_cases h : keyOf a ∈ seen
    · simp only [dedupGo, if_pos h]
      exact List.Sublist.cons a (ih seen)
    · simp only [dedupGo, if_neg h]
      exact List.Sublist.cons₂ a (ih (keyOf a :: seen))

theorem dedupGo_key_not_seen (seen : List (String × String))
    (rs : List MetadataRecord) :
    ∀ r ∈ dedupGo seen rs, keyOf r ∉ seen := by
  induction rs generalizing seen with
  | nil => simp [dedupGo]
  | cons a rs ih =>
    by_cases h : keyOf a ∈ seen
    · simp only [dedupGo, if_pos h]
      exact ih seen
    · simp only [dedupGo, if_neg h]
      intro r hr
      rcases List.mem_cons.mp hr with rfl | hr
      · exact h
      · intro hseen
        exact ih (keyOf a :: seen) r hr (List.mem_cons_of_mem _ hseen)

theorem dedupGo_keys_nodup (seen : List (String × String))
    (rs : List MetadataRecord) :
    ((dedupGo seen rs).map keyOf).Nodup := by
  induction rs generalizing seen with
  | nil => simp [dedupGo]
  | cons a rs ih =>
    by_cases h : keyOf a ∈ seen
    · simp only [dedupGo, if_pos h]
      exact ih seen
    · simp only [dedupGo, if_neg h, List.map_cons, List.nodup_cons]
      refine ⟨?_, ih (keyOf a :: seen)⟩
      intro hmem
      rcases List.mem_map.mp hmem with ⟨r, hr, hkey⟩
      exact dedupGo_key_not_seen (keyOf a :: seen) rs r hr
        (hkey ▸ List.mem_cons_self _ _)

theorem dedupGo_countP_seen (seen : List (String × String))
    (rs : List MetadataRecord) (k : String × String) (hk : k ∈ seen) :
    (dedupGo seen rs).countP (fun r => decide (keyOf r = k)) = 0 := by
  rw [List.countP_eq_zero]
  intro r hr
  simp only [decide_eq_true_eq]
  intro hkey
  exact dedupGo_key_not_seen seen rs r hr (hkey ▸ hk)

theorem dedupGo_countP_one (seen : List (String × String))
    (rs : List MetadataRecord) (k : String × String)
    (hk : k ∉ seen) (hmem : k ∈ rs.map keyOf) :
    (dedupGo seen rs).countP (fun r => decide (keyOf r = k)) = 1 := by
  induction rs generalizing seen with
  | nil => simp at hmem
  | cons a rs ih =>
    by_cases h : keyOf a ∈ seen
    · simp only [dedupGo, if_pos h]
      rcases List.mem_map.mp hmem with ⟨r, hr, hkey⟩
      rcases List.mem_cons.mp hr with rfl | hr
      · exact absurd (hkey ▸ h) hk
      · exact ih seen hk (List.mem_map.mpr ⟨r, hr, hkey⟩)
    · simp only [dedupGo, if_neg h, List.countP_cons]
      by_cases hak : keyOf a = k
      · rw [dedupGo_countP_seen (keyOf a :: seen) rs k
          (hak ▸ List.mem_cons_self _ _)]
        simp [hak]
      · have hk' : k ∉ keyOf a :: seen := by
          intro hc
          rcases List.mem_cons.mp hc with rfl | hc
          · exact hak rfl
          · exact hk hc
        have hmem' : k ∈ rs.map keyOf := by
          rcases List.mem_map.mp hmem with ⟨r, hr, hkey⟩
          rcases List.mem_cons.mp hr with rfl | hr
          · exact absurd hkey hak
          · exact List.mem_map.mpr ⟨r, hr, hkey⟩
        rw [ih (keyOf a :: seen) hk' hmem']
        simp [hak]

theorem dedupGo_find (seen : List (String × String))
    (rs : List MetadataRecord) (k : String × String) (hk : k ∉ seen) :
    (dedupGo seen rs).find? (fun r => decide (keyOf r = k)) =
      rs.find? (fun r => decide (keyOf r = k)) := by
  induction rs generalizing seen with
  | nil => simp [dedupGo]
  | cons a rs ih =>
    by_cases h : keyOf a ∈ seen
    · have hak : keyOf a ≠ k := fun hc => hk (hc ▸ h)
      have hD : decide (keyOf a = k) = false := by simp [hak]
      simp only [dedupGo, if_pos h, List.find?_cons, hD]
      exact ih seen hk
    · by_cases hak : keyOf a = k
      · have hD : decide (keyOf a = k) = true := by simp [hak]
        simp only [dedupGo, if_neg h, List.find?_cons, hD]
      · have hk' : k ∉ keyOf a :: seen := by
          intro hc
          rcases List.mem_cons.mp hc with rfl | hc
          · exact hak rfl
          · exact hk hc
        have hD : decide (keyOf a = k) = false := by simp [hak]
        simp only [dedupGo, if_neg h, List.find?_cons, hD]
        exact ih (keyOf a :: seen) hk'

/-! ### Lemmas about the loader -/

theorem getStrip_ok (fields : List (String × JValue)) (key : String)
    (h : stringFieldB (jget fields key) = true) :
    getStrip fields key = Except.ok (pyStrip (strFieldOrEmpty fields key)) := by
  cases hj : jget fields key with
  | none => simp [getStrip, strFieldOrEmpty, hj]; decide
  | some v =>
    cases v with
    | str s => simp [getStrip, strFieldOrEmpty, hj]
    | num n => rw [hj] at h; simp [stringFieldB] at h

theorem getStrip_error_iff (fields : List (String × JValue)) (key : String) :
    getStrip fields key = Except.error () ↔
      stringFieldB (jget fields key) = false := by
  cases hj : jget fields key with
  | none => simp [getStrip, hj, stringFieldB]
  | some v =>
    cases v with
    | str s => simp [getStrip, hj, stringFieldB]
    | num n => simp [getStrip, hj, stringFieldB]

theorem processItem_eq_specKeep (src : String) (i : JItem)
    (h : stringFieldsB i = true) :
    processItem src i = Except.ok (specKeep src i) := by
  cases i with
  | nondict => rfl
  | dict fields =>
    simp only [stringFieldsB, Bool.and_eq_true] at h
    obtain ⟨h1, h2⟩ := h
    simp only [processItem, specKeep, getStrip_ok fields "name" h1,
      getStrip_ok fields "namespace" h2]
    by_cases hc : pyStrip (strFieldOrEmpty fields "name") = "" ∨
        pyStrip (strFieldOrEmpty fields "namespace") = "" <;>
      simp [hc]

theorem processItem_error_of (src : String) (i : JItem)
    (h : stringFieldsB i = false) :
    processItem src i = Except.error () := by
  cases i with
  | nondict => simp [stringFieldsB] at h
  | dict fields =>
    cases h1 : stringFieldB (jget fields "name") with
    | false =>
      have e1 : getStrip fields "name" = Except.error () :=
        (getStrip_error_iff fields "name").mpr h1
      simp [processItem, e1]
    | true =>
      cases h2 : stringFieldB (jget fields "namespace") with
      | false =>
        have e1 := getStrip_ok fields "name" h1
        have e2 : getStrip fields "namespace" = Except.error () :=
          (getStrip_error_iff fields "namespace").mpr h2
        simp [processItem, e1, e2]
      | true => rw [stringFieldsB, h1, h2] at h; simp at h

theorem loadItems_eq_filterMap (src : String) (items : List JItem)
    (h : ∀ i ∈ items, stringFieldsB i = true) :
    loadItems src items = Except.ok (items.filterMap (specKeep src)) := by
  induction items with
  | nil => rfl
  | cons i is ih =>
    have hi := h i (List.mem_cons_self i is)
    have ht := ih (fun j hj => h j (List.mem_cons_of_mem i hj))
    simp only [loadItems, processItem_eq_specKeep src i hi, ht,
      List.filterMap_cons]
    cases hsk : specKeep src i <;> simp [hsk]

theorem loadItems_error_of_mem (src : String) (items : List JItem) (i : JItem)
    (hmem : i ∈ items) (hbad : stringFieldsB i = false) :
    loadItems src items = Except.error () := by
  induction items with
  | nil => simp at hmem
  | cons j js ih =>
    rcases List.mem_cons.mp hmem with rfl | hmem'
    · simp [loadItems, processItem_error_of src i hbad]
    · cases hp : processItem src j with
      | error e => cases e; simp [loadItems, hp]
      | ok r => simp [loadItems, hp, ih hmem']

theorem loadRecords_skip_malformed (pre suf : List (String × JFile))
    (n : String) :
    loadRecords (pre ++ (n, JFile.malformed) :: suf) =
      loadRecords (pre ++ suf) := by
  induction pre with
  | nil =>
    simp only [List.nil_append, loadRecords, loadFile]
    cases hs : loadRecords suf <;> simp [hs]
  | cons f pre ih =>
    simp only [List.cons_append, loadRecords, List.append_eq, ih]

/-! ### Lemmas about the filename and service-name sanitizers -/

theorem mem_replaceChar (c d x : Char) (s : String)
    (hx : x ∈ (replaceChar c d s).data) :
    x = d ∨ (x ∈ s.data ∧ x ≠ c) := by
  rcases List.mem_map.mp (show x ∈ s.data.map _ from hx) with ⟨y, hy, hmap⟩
  by_cases hyc : y = c
  · left; rw [← hmap, if_pos hyc]
  · right
    rw [← hmap, if_neg hyc]
    exact ⟨hy, hyc⟩

theorem sanitizeKey_no_bad (nspace name : String) :
    ∀ c ∈ (sanitizeKey nspace name).data, c ≠ '/' ∧ c ≠ ':' ∧ c ≠ '.' := by
  intro c hc
  simp only [sanitizeKey] at hc
  rcases mem_replaceChar '.' '_' c _ hc with rfl | ⟨hc2, hdot⟩
  · exact ⟨by decide, by decide, by decide⟩
  · rcases mem_replaceChar ':' '_' c _ hc2 with rfl | ⟨hc3, hcol⟩
    · exact ⟨by decide, by decide, by decide⟩
    · rcases mem_replaceChar '/' '_' c _ hc3 with rfl | ⟨_, hsl⟩
      · exact ⟨by decide, by decide, by decide⟩
      · exact ⟨hsl, hcol, hdot⟩

theorem dockerfileNameOf_dot_count (r : MetadataRecord) :
    (dockerfileNameOf r).data.count '.' = 1 := by
  rw [dockerfileNameOf, String.data_append, List.count_append]
  have h0 : (sanitizeKey r.«namespace» r.name).data.count '.' = 0 :=
    List.count_eq_zero.mpr
      (fun h => (sanitizeKey_no_bad r.«namespace» r.name '.' h).2.2 rfl)
  rw [h0]
  decide

theorem sanitize_service_name_chars (s : String) :
    ∀ c ∈ (sanitize_service_name s).data,
      ('a' ≤ c ∧ c ≤ 'z') ∨ ('0' ≤ c ∧ c ≤ '9') ∨ c = '_' ∨ c = '-' := by
  intro c hc
  rcases List.mem_map.mp (show c ∈ (pyLower s).data.map _ from hc)
    with ⟨y, _, hmap⟩
  by_cases hy : ('a' ≤ y ∧ y ≤ 'z') ∨ ('0' ≤ y ∧ y ≤ '9') ∨ y = '-' ∨ y = '_'
  · rw [← hmap, if_pos hy]
    tauto
  · rw [← hmap, if_neg hy]
    right; right; left; rfl

/-! ### Claim C1 -/

/-- C1, counterexample: the claim requires every name containing
"ubuntu" or "debian" — including names that also contain "alpine" — to
yield the debian family, but the classifier checks "alpine" first:
"ubuntu-alpine" contains "ubuntu" and is classified into the alpine
family, so the claim is false. -/
theorem ubuntu_name_not_always_debian :
    ¬ (∀ name : String, strIn "ubuntu" (pyLower name) = true →
        distroOf name = "debian") := by
  intro h
  have hc := h "ubuntu-alpine" (by decide)
  exact absurd hc (by decide)

/-- C1, amended: classification is decided by case-insensitive substring
search with the "alpine" test taking precedence: a name containing
"alpine" yields the alpine family (alpine base image, alpine tool list,
apk-style install command); a name containing "ubuntu" or "debian" but
not "alpine" yields the debian family (debian base image, debian tool
list, apt-get install command); any other name defaults to the alpine
family. -/
theorem classifier_families (name : String) :
    (strIn "alpine" (pyLower name) = true →
      guess_base_image name = "alpine:latest" ∧ distroOf name = "alpine" ∧
      toolsOf name = TOOLS_BY_DISTRO "alpine" ∧
      installCmdOf name =
        "apk add --no-cache socat curl wget netcat-openbsd strace procps iproute2 lsof findutils bash less") ∧
    (strIn "alpine" (pyLower name) = false →
      (strIn "ubuntu" (pyLower name) = true ∨ strIn "debian" (pyLower name) = true) →
      guess_base_image name = "debian:bookworm-slim" ∧ distroOf name = "debian" ∧
      toolsOf name = TOOLS_BY_DISTRO "debian" ∧
      installCmdOf name =
        "apt-get update && apt-get install -y --no-install-recommends socat curl wget netcat-traditional strace procps iproute2 lsof findutils bash less && rm -rf /var/lib/apt/lists/*") ∧
    (strIn "alpine" (pyLower name) = false →
      strIn "ubuntu" (pyLower name) = false → strIn "debian" (pyLower name) = false →
      guess_base_image name = "alpine:latest" ∧ distroOf name = "alpine" ∧
      toolsOf name = TOOLS_BY_DISTRO "alpine" ∧
      installCmdOf name =
        "apk add --no-cache socat curl wget netcat-openbsd strace procps iproute2 lsof findutils bash less") := by
  refine ⟨fun h1 => ?_, fun h1 h2 => ?_, fun h1 h2 h3 => ?_⟩
  · have hb : guess_base_image name = "alpine:latest" := by
      simp [guess_base_image, h1]
    have hd : distroOf name = "alpine" := by rw [distroOf, hb]; decide
    refine ⟨hb, hd, by rw [toolsOf, hd], ?_⟩
    simp [installCmdOf, hd]
    decide
  · have hb : guess_base_image name = "debian:bookworm-slim" := by
      rcases h2 with h2 | h2 <;> simp [guess_base_image, h1, h2]
    have hd : distroOf name = "debian" := by rw [distroOf, hb]; decide
    refine ⟨hb, hd, by rw [toolsOf, hd], ?_⟩
    simp [installCmdOf, hd]
    decide
  · have hb : guess_base_image name = "alpine:latest" := by
      simp [guess_base_image, h1, h2, h3]
    have hd : distroOf name = "alpine" := by rw [distroOf, hb]; decide
    refine ⟨hb, hd, by rw [toolsOf, hd], ?_⟩
    simp [installCmdOf, hd]
    decide

/-- C1, witness: the three branches of `classifier_families` applied at
concrete names. -/
theorem classifier_families_witness :
    distroOf "Alpine-test" = "alpine" ∧ distroOf "my-Ubuntu" = "debian" ∧
    distroOf "nginx" = "alpine" :=
  ⟨((classifier_families "Alpine-test").1 (by decide)).2.1,
   ((classifier_families "my-Ubuntu").2.1 (by decide) (Or.inl (by decide))).2.1,
   ((classifier_families "nginx").2.2 (by decide) (by decide) (by decide)).2.1⟩

/-! ### Claim C2 -/

/-- C2: records are deduplicated by the key `(namespace, name)`: each key
occurring in the input survives in exactly one record, the deduplicated
list is a subsequence of the input (order preserved), the surviving
record for a key is the first occurrence, and exactly one Dockerfile
write and one service entry are generated per surviving record. -/
theorem dedup_first_occurrence_wins (rs : List MetadataRecord)
    (k : String × String) (hk : k ∈ rs.map keyOf) :
    (dedupRecords rs).countP (fun r => decide (keyOf r = k)) = 1 ∧
    List.Sublist (dedupRecords rs) rs ∧
    (dedupRecords rs).find? (fun r => decide (keyOf r = k)) =
      rs.find? (fun r => decide (keyOf r = k)) ∧
    ((dedupRecords rs).map toServiceInfo).length = (dedupRecords rs).length ∧
    ((dedupRecords rs).map
      (fun r => (dockerfileNameOf r, generate_dockerfile r))).length =
      (dedupRecords rs).length :=
  ⟨dedupGo_countP_one [] rs k (by simp) hk, dedupGo_sublist [] rs,
   dedupGo_find [] rs k (by simp), List.length_map _ _, List.length_map _ _⟩

/-- C2, witness: two records with the identical key ("library", "curl")
yield exactly one surviving record, namely the first occurrence. -/
theorem dedup_first_occurrence_wins_witness :
    (dedupRecords [curlRecord, curlRecordDup]).countP
      (fun r => decide (keyOf r = ("library", "curl"))) = 1 ∧
    (dedupRecords [curlRecord, curlRecordDup]).find?
      (fun r => decide (keyOf r = ("library", "curl"))) = some curlRecord := by
  have h := dedup_first_occurrence_wins [curlRecord, curlRecordDup]
    ("library", "curl") (by decide)
  exact ⟨h.1, by rw [h.2.2.1]; decide⟩

/-! ### Claim C3 -/

/-- C3, counterexample: the Dockerfile output filename itself always
contains a dot — for the record (library, curl) it is
"Dockerfile.library_curl" — so the claim that the output filename
contains no '.' characters is false as stated. -/
theorem dockerfile_filename_contains_dot :
    dockerfileNameOf curlRecord = "Dockerfile.library_curl" ∧
    '.' ∈ (dockerfileNameOf curlRecord).data := by decide

/-- C3, amended: the sanitized key from which the filename is formed
contains no '/', ':' or '.' (every slash, colon and dot of
`namespace_name` is replaced by '_'); the filename is the fixed prefix
"Dockerfile." followed by that key, so it contains no '/' or ':' and
exactly one '.', the fixed separator. -/
theorem sanitized_filename_chars (r : MetadataRecord) :
    (∀ c ∈ (sanitizeKey r.«namespace» r.name).data,
      c ≠ '/' ∧ c ≠ ':' ∧ c ≠ '.') ∧
    dockerfileNameOf r = "Dockerfile." ++ sanitizeKey r.«namespace» r.name ∧
    (∀ c ∈ (dockerfileNameOf r).data, c ≠ '/' ∧ c ≠ ':') ∧
    (dockerfileNameOf r).data.count '.' = 1 := by
  refine ⟨sanitizeKey_no_bad _ _, rfl, ?_, dockerfileNameOf_dot_count r⟩
  intro c hc
  simp only [dockerfileNameOf, String.data_append] at hc
  rcases List.mem_append.mp hc with h | h
  · exact (show ∀ c ∈ "Dockerfile.".data, c ≠ '/' ∧ c ≠ ':' by decide) c h
  · exact ⟨(sanitizeKey_no_bad _ _ c h).1, (sanitizeKey_no_bad _ _ c h).2.1⟩

/-- C3, witness: `sanitized_filename_chars` instantiated at the curl
record. -/
theorem sanitized_filename_chars_witness :
    ('_' : Char) ≠ '/' ∧ (dockerfileNameOf curlRecord).data.count '.' = 1 :=
  ⟨((sanitized_filename_chars curlRecord).1 '_' (by decide)).1,
   (sanitized_filename_chars curlRecord).2.2.2⟩

/-! ### Claim C4 -/

/-- C4: for the input record
`{"name":"curl","namespace":"library","description":"test"}` the program
produces one Dockerfile named `Dockerfile.library_curl` whose content
contains `FROM alpine:latest` and an install line beginning
`apk add --no-cache`, and the compose document contains a service block
named `library_curl` whose dockerfile field references
`Dockerfile.library_curl`. -/
theorem curl_example_end_to_end :
    loadRecords curlFiles = Except.ok [curlRecord] ∧
    dockerfileWritesOf curlFiles =
      Except.ok [("Dockerfile.library_curl", generate_dockerfile curlRecord)] ∧
    strIn "FROM alpine:latest" (generate_dockerfile curlRecord) = true ∧
    strIn "RUN apk add --no-cache " (generate_dockerfile curlRecord) = true ∧
    processJsonFiles curlFiles = Except.ok
      [{ service_name := "library_curl"
         dockerfile := "Dockerfile.library_curl"
         container_name := "escape-target-library_curl" }] ∧
    strIn "  library_curl:\n    build:\n      context: .\n      dockerfile: Dockerfile.library_curl\n"
      (generate_docker_compose [toServiceInfo curlRecord]) = true := by
  decide

/-! ### Claim C5 -/

/-- C5: every character of a derived compose service name is a lowercase
letter, a digit, an underscore, or a hyphen. -/
theorem service_name_dns_safe (r : MetadataRecord) (c : Char)
    (hc : c ∈ ((toServiceInfo r).service_name).data) :
    ('a' ≤ c ∧ c ≤ 'z') ∨ ('0' ≤ c ∧ c ≤ '9') ∨ c = '_' ∨ c = '-' :=
  sanitize_service_name_chars (sanitizeKey r.«namespace» r.name) c hc

/-- C5, witness: `service_name_dns_safe` at the curl record and the
character 'l' of its service name. -/
theorem service_name_dns_safe_witness :
    ('a' ≤ 'l' ∧ 'l' ≤ 'z') ∨ ('0' ≤ 'l' ∧ 'l' ≤ '9') ∨ 'l' = '_' ∨ 'l' = '-' :=
  service_name_dns_safe curlRecord 'l' (by decide)

/-! ### Claim C6 -/

/-- C6: errors are handled in exactly three ways: a missing input
directory raises a fatal error before any processing, a file whose
content is not parseable JSON contributes nothing (it is skipped with a
warning and the remaining files are processed), and such a skip never
changes the outcome of the run, in particular it never aborts it. -/
theorem error_taxonomy (files pre suf : List (String × JFile)) (n : String) :
    runMain false files = Except.error MainError.dirMissing ∧
    loadRecords (pre ++ (n, JFile.malformed) :: suf) = loadRecords (pre ++ suf) ∧
    runMain true (pre ++ (n, JFile.malformed) :: suf) = runMain true (pre ++ suf) := by
  refine ⟨rfl, loadRecords_skip_malformed pre suf n, ?_⟩
  cases hps : pre ++ suf with
  | nil =>
    have hpre : pre = [] := (List.append_eq_nil.mp hps).1
    have hsuf : suf = [] := (List.append_eq_nil.mp hps).2
    subst hpre; subst hsuf
    simp [runMain, processJsonFiles, loadRecords, loadFile, dedupRecords,
      dedupGo, Except.map]
  | cons f fs =>
    have h1 : (pre ++ (n, JFile.malformed) :: suf).isEmpty = false := by
      cases pre <;> simp
    have h2 : (pre ++ suf).isEmpty = false := by rw [hps]; rfl
    simp [runMain, processJsonFiles, h1, h2,
      loadRecords_skip_malformed pre suf n, hps]

/-! ### Claim C7 -/

/-- C7: for every parsed item whose present `name`/`namespace` values
are strings, the loader keeps exactly the dictionary items whose `name`
and `namespace` are present and non-empty after trimming: an item whose
`name` or `namespace` is absent or trims to the empty string yields no
record, and processing continues (the loader returns normally with the
remaining records). -/
theorem loader_drops_blank_records (src : String) (items : List JItem)
    (h : ∀ i ∈ items, stringFieldsB i = true) :
    loadItems src items = Except.ok (items.filterMap (specKeep src)) ∧
    ∀ fields : List (String × JValue),
      (specKeep src (JItem.dict fields) = none ↔
        pyStrip (strFieldOrEmpty fields "name") = "" ∨
        pyStrip (strFieldOrEmpty fields "namespace") = "") := by
  refine ⟨loadItems_eq_filterMap src items h, ?_⟩
  intro fields
  simp only [specKeep]
  by_cases hc : pyStrip (strFieldOrEmpty fields "name") = "" ∨
      pyStrip (strFieldOrEmpty fields "namespace") = "" <;> simp [hc]

/-- C7, witness: an item whose name strips to "" is dropped while the
curl item is kept, and processing returns normally. -/
theorem loader_drops_blank_records_witness :
    loadItems "metadata.json" [blankItem, curlItem] =
      Except.ok [curlRecord] := by
  have h := loader_drops_blank_records "metadata.json" [blankItem, curlItem]
    (by decide)
  rw [h.1]
  decide

/-! ### Claim C8 -/

/-- C8: an input directory with no `*.json` files makes the processing
function return the empty list, and in that case the compose file is not
written (the run ends with a terminal message). -/
theorem empty_dir_short_circuit :
    processJsonFiles [] = Except.ok [] ∧
    runMain true [] = Except.ok { services := [], composeWritten := false } := by
  decide

/-! ### Claim C9 -/

/-- C9: the map from the dedup key to the sanitized output filename is
not injective: the records (a, b.c) and (a, b_c) have distinct keys, so
both survive deduplication, yet both are written to the same path
`Dockerfile.a_b_c` (the second write overwriting the first) and produce
two compose service entries with the same service name `a_b_c`. -/
theorem sanitized_key_collision :
    keyOf recDotName ≠ keyOf recUscName ∧
    dedupRecords [recDotName, recUscName] = [recDotName, recUscName] ∧
    (dedupRecords [recDotName, recUscName]).map dockerfileNameOf =
      ["Dockerfile.a_b_c", "Dockerfile.a_b_c"] ∧
    (dedupRecords [recDotName, recUscName]).map
      (fun r => (toServiceInfo r).service_name) = ["a_b_c", "a_b_c"] := by
  decide

/-! ### Claim C10 -/

/-- C10: if a parsed item is a dictionary whose `name` or `namespace`
field is present but holds a number instead of a string, the loader
raises (the `.strip()` call fails) instead of dropping the record and
continuing; the skip behaviour holds only under the precondition that
every present `name`/`namespace` value is a string. -/
theorem nonstring_field_raises (src : String) (items : List JItem)
    (fields : List (String × JValue)) (k : Int)
    (hmem : JItem.dict fields ∈ items)
    (hk : jget fields "name" = some (JValue.num k) ∨
          jget fields "namespace" = some (JValue.num k)) :
    loadItems src items = Except.error () ∧
    ∀ items' : List JItem, (∀ i ∈ items', stringFieldsB i = true) →
      loadItems src items' = Except.ok (items'.filterMap (specKeep src)) := by
  refine ⟨?_, fun items' h' => loadItems_eq_filterMap src items' h'⟩
  apply loadItems_error_of_mem src items (JItem.dict fields) hmem
  rcases hk with hk | hk <;> simp [stringFieldsB, stringFieldB, hk]

/-- C10, witness: a numeric `name` aborts the loader with an exception,
while an all-string item list is processed normally. -/
theorem nonstring_field_raises_witness :
    loadItems "f.json" [badItem] = Except.error () ∧
    loadItems "f.json" [curlItem] =
      Except.ok ([curlItem].filterMap (specKeep "f.json")) := by
  have h := nonstring_field_raises "f.json" [badItem]
    [("name", JValue.num 3), ("namespace", JValue.str "x")] 3
    (by decide) (Or.inl (by decide))
  exact ⟨h.1, h.2 [curlItem] (by decide)⟩

end EscapeTargets
